import Mathlib

/-!
Verification of the `normie` filename-normalizer (Rust, `src/lib.rs`) against
its natural-language specification.  The Rust sources are shallowly embedded:
strings are Lean `String`s (lists of Unicode scalar values), the filesystem and
the interactive reader are explicit oracles threaded through the functions,
and `panic` is modelled by `Option.none`.  Rust's `str::to_lowercase` /
`str::to_uppercase` are modelled at the ASCII level (`Char` code-point
arithmetic), which is exact on every string the claims evaluate.
-/

namespace Normie

/-- Model of the character mapping performed by
`text.replace(|x| x == '\u{20}' || x == '\u{3000}', "_")` in `mod_str`:
a common or ideographic space becomes an underscore, anything else is kept. -/
def spaceToU (c : Char) : Char :=
  if c = ' ' ∨ c = '\u3000' then '_' else c

/-- ASCII model of Rust `char`/`str` lowercasing: `A`..`Z` shift by 32. -/
def chLower (c : Char) : Char :=
  if 65 ≤ c.toNat ∧ c.toNat ≤ 90 then Char.ofNat (c.toNat + 32) else c

/-- ASCII model of Rust `char`/`str` uppercasing: `a`..`z` shift by 32. -/
def chUpper (c : Char) : Char :=
  if 97 ≤ c.toNat ∧ c.toNat ≤ 122 then Char.ofNat (c.toNat - 32) else c

/-- Step 1 of `mod_str`: replace every common or ideographic space. -/
def replaceSpaces (s : String) : String :=
  ⟨s.data.map spaceToU⟩

/-- The special characters removed by option `r`
(`const SPECIAL` in `lib.rs`; underscore, period and hyphen are excluded). -/
def SPECIAL : String :=
  "!\"#$%&'()*+,/:;<=>?@[\\]^`\x7b|\x7d~ªº"

/-- Embedding of `out.replace(c, "")` for a single character pattern `c`:
every occurrence of `c` is deleted. -/
def removeChar (s : String) (c : Char) : String :=
  ⟨s.data.filter (fun x => x != c)⟩

/-- Embedding of the `for c in SPECIAL.chars() { out = out.replace(c, "") }`
loop of `mod_str`. -/
def removeSpecial (s : String) : String :=
  SPECIAL.data.foldl removeChar s

/-- Embedding of `out.to_lowercase()` (ASCII model). -/
def strLower (s : String) : String :=
  ⟨s.data.map chLower⟩

/-- Embedding of `out.to_uppercase()` (ASCII model). -/
def strUpper (s : String) : String :=
  ⟨s.data.map chUpper⟩

/-- The structure `Parsed` of `lib.rs`: append text, insert text, program
name, flag characters (a `Vec<char>`, kept in order), positional arguments. -/
structure Parsed where
  app : String
  ins : String
  me : String
  flg : List Char
  pos : List String
deriving Repr, DecidableEq

/-- `Parsed::new()`: all fields empty. -/
def Parsed.new : Parsed :=
  ⟨"", "", "", [], []⟩

/-- Embedding of `mod_str` from `lib.rs`: spaces to underscores, then the
conditional append, insert, special-character removal and case folding,
in the source's order. -/
def mod_str (text : String) (args : Parsed) : String :=
  let out := replaceSpaces text
  let out := if args.flg.contains 'a' && !args.app.isEmpty then out ++ args.app else out
  let out := if args.flg.contains 'i' && !args.ins.isEmpty then args.ins ++ out else out
  let out := if args.flg.contains 'r' then removeSpecial out else out
  if args.flg.contains 'l' then strLower out
  else if args.flg.contains 'u' then strUpper out
  else out

/-- The transformation pipeline as the specification words it (§4.2): five
steps in a fixed order — space replacement, append, insert, special-character
removal, case folding.  Stated independently of `mod_str` to compare against. -/
def transform_spec (text : String) (args : Parsed) : String :=
  let s1 := replaceSpaces text
  let s2 := if 'a' ∈ args.flg ∧ args.app ≠ "" then s1 ++ args.app else s1
  let s3 := if 'i' ∈ args.flg ∧ args.ins ≠ "" then args.ins ++ s2 else s2
  let s4 := if 'r' ∈ args.flg then removeSpecial s3 else s3
  if 'l' ∈ args.flg then strLower s4
  else if 'u' ∈ args.flg then strUpper s4
  else s4

/-- `const FLAGS` of `lib.rs`: the recognized flag characters. -/
def FLAGS : List Char :=
  ['a', 'h', 'i', 'l', 'r', 't', 'u', 'v']

/-- Validation message `"missing file operand"`. -/
def missingOperandMsg : String :=
  "missing file operand"

/-- Validation message for the `l`/`u` conflict. -/
def conflictMsg : String :=
  "options 'l' and 'u' not allowed at same time"

/-- Validation message `"missing text to append"`. -/
def missingAppendMsg : String :=
  "missing text to append"

/-- Validation message `"missing text to insert"`. -/
def missingInsertMsg : String :=
  "missing text to insert"

/-- Validation message `format!("invalid option -- '{}'", c)`. -/
def invalidOptionMsg (c : Char) : String :=
  "invalid option -- '" ++ String.singleton c ++ "'"

/-- One step of the classification loop in `arg_analyzer` (`for arg in args`):
a token starting with `-` extends the flag list; otherwise, when `a` or `i` is
active and the token is not an existing path (per the filesystem oracle
`fsExists`), it fills the first empty value slot among `app`/`ins` — and is
dropped when neither inner branch fires; every other token is positional. -/
def classify (fsExists : String → Bool) (out : Parsed) (arg : String) : Parsed :=
  match arg.data with
  | '-' :: stripped => { out with flg := out.flg ++ stripped }
  | _ =>
    if (out.flg.contains 'a' || out.flg.contains 'i') && !fsExists arg then
      if out.flg.contains 'a' && out.app.isEmpty then { out with app := arg }
      else if out.flg.contains 'i' && out.ins.isEmpty then { out with ins := arg }
      else out
    else { out with pos := out.pos ++ [arg] }

/-- The classification phase of `arg_analyzer`: `me` from the first token,
then the loop over the remaining tokens. -/
def analyze (fsExists : String → Bool) (argv : List String) : Parsed :=
  argv.tail.foldl (classify fsExists) { Parsed.new with me := argv.headD "" }

/-- Embedding of `arg_analyzer` from `lib.rs`: the length guard, the
classification loop, then the validation sequence (help short-circuit,
empty positionals, `l`/`u` conflict, missing append/insert text, unknown
flag) in the source's order. -/
def arg_analyzer (fsExists : String → Bool) (argv : List String) : Except String Parsed :=
  if argv.length ≤ 1 then .error missingOperandMsg
  else
    let out := analyze fsExists argv
    if out.flg.contains 'h' then .ok out
    else if out.pos.isEmpty then .error missingOperandMsg
    else if out.flg.contains 'l' && out.flg.contains 'u' then .error conflictMsg
    else if out.flg.contains 'a' && out.app.isEmpty then .error missingAppendMsg
    else if out.flg.contains 'i' && out.ins.isEmpty then .error missingInsertMsg
    else
      match out.flg.find? (fun c => !FLAGS.contains c) with
      | some c => .error (invalidOptionMsg c)
      | none => .ok out

/-- Split a character list at every `/` (the separator of Unix paths). -/
def splitOnSlash : List Char → List (List Char)
  | [] => [[]]
  | c :: rest =>
    if c = '/' then [] :: splitOnSlash rest
    else
      match splitOnSlash rest with
      | [] => [[c]]
      | x :: xs => (c :: x) :: xs

/-- Model of Rust `Path::file_name` for slash-separated paths: the final
normal component, with empty and `.` components dropped; `none` when the path
has no normal component or ends in `..`. -/
def fileName (p : String) : Option String :=
  let comps := (splitOnSlash p.data).filter (fun s => !s.isEmpty && !(s == ['.']))
  match comps.getLast? with
  | none => none
  | some c => if c == ['.', '.'] then none else some ⟨c⟩

/-- Embedding of `p.strip_suffix(name).unwrap_or_default()`: the part of `p`
before the suffix `name`, or the empty string when `name` is not a suffix. -/
def stripTail (p name : String) : String :=
  if name.data.isSuffixOf p.data then ⟨p.data.take (p.data.length - name.data.length)⟩
  else ""

/-- The destination path computed by `rename` in `lib.rs`:
`format!("{}{}", p.strip_suffix(name).unwrap_or_default(), target)`. -/
def destOf (args : Parsed) (p name : String) : String :=
  stripTail p name ++ mod_str name args

/-- Characters before the first occurrence of `" ("`, if one occurs. -/
def beforeParen : List Char → Option (List Char)
  | [] => none
  | ' ' :: '(' :: _ => some []
  | c :: rest => (beforeParen rest).map (fun l => c :: l)

/-- Embedding of `e.to_string().split_once(" (").unwrap_or_default().0` in
`rename`'s error branch: the text before the first `" ("`, and the empty
string when none occurs. -/
def firstClause (e : String) : String :=
  match beforeParen e.data with
  | some l => ⟨l⟩
  | none => ""

/-- Model of Rust `char::is_whitespace`: the Unicode White_Space property —
U+0009..U+000D, U+0020, U+0085, U+00A0, U+1680, U+2000..U+200A, U+2028,
U+2029, U+202F, U+205F and U+3000. -/
def isWhite (c : Char) : Bool :=
  c = '\t' || c = '\n' || c = '\u000B' || c = '\u000C' || c = '\r' || c = ' ' ||
  c = '\u0085' || c = '\u00A0' || c = '\u1680' ||
  c = '\u2000' || c = '\u2001' || c = '\u2002' || c = '\u2003' || c = '\u2004' ||
  c = '\u2005' || c = '\u2006' || c = '\u2007' || c = '\u2008' || c = '\u2009' ||
  c = '\u200A' || c = '\u2028' || c = '\u2029' || c = '\u202F' || c = '\u205F' ||
  c = '\u3000'

/-- Drop leading whitespace characters. -/
def trimL : List Char → List Char
  | [] => []
  | c :: rest => if isWhite c then trimL rest else c :: rest

/-- Model of Rust `str::trim`: drop White_Space characters from both ends. -/
def trimChars (s : String) : String :=
  ⟨(trimL (trimL s.data).reverse).reverse⟩

/-- The decision made by `interactive` in `lib.rs` on a reply line:
`input.trim()[..1].to_lowercase() != "y"` means decline.  The byte slice
`[..1]` panics (modelled as `none`) when the trimmed reply is empty or its
first character occupies more than one UTF-8 byte; otherwise `some b` where
`b` is whether the rename proceeds. -/
def interactiveCheck (input : String) : Option Bool :=
  match (trimChars input).data with
  | [] => none
  | c :: _ => if c.utf8Size ≠ 1 then none else some (chLower c = 'y')

/-- The external world `rename` interacts with: the set of existing paths
(`Path::exists`, `fs::rename`), an oracle giving the OS error string when
`fs::rename` fails, and the user's reply line to each interactive prompt. -/
structure World where
  files : List String
  osError : String → String → Option String
  reply : String → String → String

/-- Bold wrapper `"\x1b[1m{}\x1b[0m"` used by every diagnostic of `lib.rs`. -/
def boldMe (me : String) : String :=
  "\x1b[1m" ++ me ++ "\x1b[0m"

/-- Per-target message for a nonexistent path. -/
def notValidMsg (me p : String) : String :=
  boldMe me ++ ": '" ++ p ++ "' is not a valid directory/file.\n"

/-- Per-target message for a path with no extractable filename. -/
def noNameMsg (me p : String) : String :=
  boldMe me ++ ": " ++ p ++ " has no valid name\n"

/-- Per-target message when the transformed name equals the original. -/
def noopMsg (me p : String) : String :=
  boldMe me ++ ": nothing to do with '" ++ p ++ "'\n"

/-- Per-target message when `fs::rename` fails. -/
def renameFailMsg (me p res clause : String) : String :=
  boldMe me ++ ": cannot rename '" ++ p ++ "' to '" ++ res ++ "': " ++ clause ++ ".\n"

/-- Trailing summary line appended by `run` when any error was recorded. -/
def summaryMsg (me : String) : String :=
  boldMe me ++ ": \x1b[1;31merror\x1b[0m, some actions could not be performed"

/-- Embedding of the `fs::rename(&path, &res)` match in `rename`: on an OS
failure (per the oracle) the per-target error message; on success the world
with `p` renamed to `res`. -/
def doRenameFs (w : World) (args : Parsed) (p res : String) : Except String World :=
  match w.osError p res with
  | some e => .error (renameFailMsg args.me p res (firstClause e))
  | none => .ok { w with files := res :: w.files.erase p }

/-- Embedding of `rename` from `lib.rs`: existence check, filename
extraction, transformation, no-op check, destination computation, optional
interactive confirmation (a decline returns `Ok`), then the filesystem
rename.  `none` models the panic reachable through `interactive`. -/
def rename (w : World) (args : Parsed) (p : String) : Option (Except String Unit × World) :=
  if w.files.contains p then
    match fileName p with
    | none => some (.error (noNameMsg args.me p), w)
    | some name =>
      if name = mod_str name args then some (.error (noopMsg args.me p), w)
      else if args.flg.contains 't' then
        match interactiveCheck (w.reply p (destOf args p name)) with
        | none => none
        | some false => some (.ok (), w)
        | some true =>
          match doRenameFs w args p (destOf args p name) with
          | .error e => some (.error e, w)
          | .ok w' => some (.ok (), w')
      else
        match doRenameFs w args p (destOf args p name) with
        | .error e => some (.error e, w)
        | .ok w' => some (.ok (), w')
  else some (.error (notValidMsg args.me p), w)

/-- The loop of `run` in `lib.rs`: each target's error message is appended to
the accumulator `acc` (`e.push_str(&errs)`), success leaves it unchanged, and
iteration always continues with the next target. -/
def runLoop (args : Parsed) : World → List String → String → Option (String × World)
  | w, [], acc => some (acc, w)
  | w, p :: rest, acc =>
    match rename w args p with
    | none => none
    | some (.ok _, w') => runLoop args w' rest acc
    | some (.error e, w') => runLoop args w' rest (acc ++ e)

/-- Embedding of `run` from `lib.rs`: iterate over `args.pos`, then return
the concatenated errors plus the summary line when any were recorded. -/
def run (w : World) (args : Parsed) : Option (Except String Unit × World) :=
  match runLoop args w args.pos "" with
  | none => none
  | some (e, w') =>
    if e = "" then some (.ok (), w')
    else some (.error (e ++ summaryMsg args.me), w')

/-- The per-target error messages of a batch, as the list the specification
describes (§4.3, §7): one record per failing target, in target order. -/
def collectErrs (args : Parsed) : World → List String → Option (List String × World)
  | w, [] => some ([], w)
  | w, p :: rest =>
    match rename w args p with
    | none => none
    | some (.ok _, w') => collectErrs args w' rest
    | some (.error e, w') => (collectErrs args w' rest).map (fun pr => (e :: pr.1, pr.2))

/-- Concatenation of a list of strings in order. -/
def strConcat (l : List String) : String :=
  l.foldl (fun a b => a ++ b) ""

/-- The batch result as the specification words it (§4.3 step 8): if any
per-target errors were recorded, a single failure carrying all of them
concatenated in target order plus the trailing summary line; else success. -/
def run_spec (w : World) (args : Parsed) : Option (Except String Unit × World) :=
  (collectErrs args w args.pos).map (fun pr =>
    (if pr.1.isEmpty then .ok () else .error (strConcat pr.1 ++ summaryMsg args.me), pr.2))

/-- No character of `s` is changed by space replacement. -/
def NoSpaces (s : String) : Prop :=
  ∀ c ∈ s.data, spaceToU c = c

/-- No character of `s` belongs to the special set. -/
def NoSpecials (s : String) : Prop :=
  ∀ c ∈ s.data, c ∉ SPECIAL.data

theorem toNat_ofNat_valid (n : Nat) (h : n.isValidChar) : (Char.ofNat n).toNat = n := by
  simp [Char.ofNat, h, Char.ofNatAux, Char.toNat, UInt32.toNat]

theorem toNat_chLower (c : Char) :
    (chLower c).toNat = if 65 ≤ c.toNat ∧ c.toNat ≤ 90 then c.toNat + 32 else c.toNat := by
  unfold chLower
  split
  · next h => exact toNat_ofNat_valid _ (by left; omega)
  · rfl

theorem toNat_chUpper (c : Char) :
    (chUpper c).toNat = if 97 ≤ c.toNat ∧ c.toNat ≤ 122 then c.toNat - 32 else c.toNat := by
  unfold chUpper
  split
  · next h => exact toNat_ofNat_valid _ (by left; omega)
  · rfl

theorem char_eq_iff_toNat {a b : Char} : a = b ↔ a.toNat = b.toNat := by
  constructor
  · intro h; rw [h]
  · intro h; exact Char.ext (UInt32.toNat.inj h)

theorem chLower_chLower (c : Char) : chLower (chLower c) = chLower c := by
  rw [char_eq_iff_toNat, toNat_chLower, toNat_chLower]
  split_ifs <;> omega

theorem chUpper_chUpper (c : Char) : chUpper (chUpper c) = chUpper c := by
  rw [char_eq_iff_toNat, toNat_chUpper, toNat_chUpper]
  split_ifs <;> omega

theorem chLower_cases (c : Char) :
    chLower c = c ∨ (97 ≤ (chLower c).toNat ∧ (chLower c).toNat ≤ 122) := by
  by_cases h : 65 ≤ c.toNat ∧ c.toNat ≤ 90
  · right; rw [toNat_chLower, if_pos h]; omega
  · left; unfold chLower; rw [if_neg h]

theorem chUpper_cases (c : Char) :
    chUpper c = c ∨ (65 ≤ (chUpper c).toNat ∧ (chUpper c).toNat ≤ 90) := by
  by_cases h : 97 ≤ c.toNat ∧ c.toNat ≤ 122
  · right; rw [toNat_chUpper, if_pos h]; omega
  · left; unfold chUpper; rw [if_neg h]

theorem spaceToU_of_toNat {c : Char} (h1 : c.toNat ≠ 32) (h2 : c.toNat ≠ 12288) :
    spaceToU c = c := by
  unfold spaceToU
  rw [if_neg]
  rintro (rfl | rfl)
  · exact h1 rfl
  · exact h2 rfl

theorem spaceToU_spaceToU (c : Char) : spaceToU (spaceToU c) = spaceToU c := by
  by_cases h : c = ' ' ∨ c = '\u3000'
  · simp only [spaceToU, if_pos h]
    decide
  · simp only [spaceToU, if_neg h]

theorem special_toNat_bounds :
    ∀ c ∈ SPECIAL.data, ¬(97 ≤ c.toNat ∧ c.toNat ≤ 122) ∧ ¬(65 ≤ c.toNat ∧ c.toNat ≤ 90) := by
  decide

theorem not_mem_SPECIAL_lower {c : Char} (h : 97 ≤ c.toNat ∧ c.toNat ≤ 122) :
    c ∉ SPECIAL.data :=
  fun hm => (special_toNat_bounds c hm).1 h

theorem not_mem_SPECIAL_upper {c : Char} (h : 65 ≤ c.toNat ∧ c.toNat ≤ 90) :
    c ∉ SPECIAL.data :=
  fun hm => (special_toNat_bounds c hm).2 h

theorem contains_iff {l : List Char} {c : Char} : l.contains c = true ↔ c ∈ l := by
  simp [List.contains, List.elem_iff]

theorem contains_eq_false_iff {l : List Char} {c : Char} : l.contains c = false ↔ c ∉ l := by
  rw [← Bool.not_eq_true, not_iff_not]
  exact contains_iff

theorem foldl_removeChar_data (cs : List Char) (s : String) :
    (cs.foldl removeChar s).data = s.data.filter (fun x => !cs.contains x) := by
  induction cs generalizing s with
  | nil => simp
  | cons c cs ih =>
    show (cs.foldl removeChar (removeChar s c)).data = _
    rw [ih, removeChar, List.filter_filter]
    refine List.filter_congr (fun a _ => ?_)
    rw [List.contains_cons, Bool.not_or]
    cases h1 : (a == c) <;> cases h2 : cs.contains a <;> simp [bne, h1, h2]

theorem removeSpecial_data (s : String) :
    (removeSpecial s).data = s.data.filter (fun x => !SPECIAL.data.contains x) :=
  foldl_removeChar_data SPECIAL.data s

theorem noSpaces_replaceSpaces (s : String) : NoSpaces (replaceSpaces s) := by
  intro c hc
  rw [replaceSpaces] at hc
  obtain ⟨a, _, rfl⟩ := List.mem_map.mp hc
  exact spaceToU_spaceToU a

theorem replaceSpaces_of_noSpaces {s : String} (h : NoSpaces s) : replaceSpaces s = s := by
  apply String.ext
  rw [replaceSpaces]
  exact (List.map_congr_left h).trans (List.map_id s.data)

theorem noSpaces_removeSpecial {s : String} (h : NoSpaces s) : NoSpaces (removeSpecial s) := by
  intro c hc
  rw [removeSpecial_data] at hc
  exact h c (List.mem_of_mem_filter hc)

theorem noSpecials_removeSpecial (s : String) : NoSpecials (removeSpecial s) := by
  intro c hc
  rw [removeSpecial_data] at hc
  have := List.of_mem_filter hc
  simp only [Bool.not_eq_true'] at this
  exact contains_eq_false_iff.mp this

theorem removeSpecial_of_noSpecials {s : String} (h : NoSpecials s) : removeSpecial s = s := by
  apply String.ext
  rw [removeSpecial_data]
  refine List.filter_eq_self.mpr (fun c hc => ?_)
  rw [Bool.not_eq_true']
  exact contains_eq_false_iff.mpr (h c hc)

theorem noSpaces_strLower {s : String} (h : NoSpaces s) : NoSpaces (strLower s) := by
  intro c hc
  rw [strLower] at hc
  obtain ⟨a, ha, rfl⟩ := List.mem_map.mp hc
  rcases chLower_cases a with heq | hrange
  · rw [heq]; exact h a ha
  · exact spaceToU_of_toNat (by omega) (by omega)

theorem noSpaces_strUpper {s : String} (h : NoSpaces s) : NoSpaces (strUpper s) := by
  intro c hc
  rw [strUpper] at hc
  obtain ⟨a, ha, rfl⟩ := List.mem_map.mp hc
  rcases chUpper_cases a with heq | hrange
  · rw [heq]; exact h a ha
  · exact spaceToU_of_toNat (by omega) (by omega)

theorem noSpecials_strLower {s : String} (h : NoSpecials s) : NoSpecials (strLower s) := by
  intro c hc
  rw [strLower] at hc
  obtain ⟨a, ha, rfl⟩ := List.mem_map.mp hc
  rcases chLower_cases a with heq | hrange
  · rw [heq]; exact h a ha
  · exact not_mem_SPECIAL_lower hrange

theorem noSpecials_strUpper {s : String} (h : NoSpecials s) : NoSpecials (strUpper s) := by
  intro c hc
  rw [strUpper] at hc
  obtain ⟨a, ha, rfl⟩ := List.mem_map.mp hc
  rcases chUpper_cases a with heq | hrange
  · rw [heq]; exact h a ha
  · exact not_mem_SPECIAL_upper hrange

theorem strLower_strLower (s : String) : strLower (strLower s) = strLower s := by
  apply String.ext
  show (strLower s).data.map chLower = s.data.map chLower
  rw [strLower]
  show (s.data.map chLower).map chLower = _
  rw [List.map_map]
  exact List.map_congr_left (fun a _ => chLower_chLower a)

theorem strUpper_strUpper (s : String) : strUpper (strUpper s) = strUpper s := by
  apply String.ext
  show (strUpper s).data.map chUpper = s.data.map chUpper
  rw [strUpper]
  show (s.data.map chUpper).map chUpper = _
  rw [List.map_map]
  exact List.map_congr_left (fun a _ => chUpper_chUpper a)

theorem foldl_append_init (l : List String) (a : String) :
    l.foldl (fun x y => x ++ y) a = a ++ strConcat l := by
  induction l generalizing a with
  | nil => exact (String.append_empty a).symm
  | cons b l ih =>
    show l.foldl _ (a ++ b) = a ++ strConcat (b :: l)
    have hbl : strConcat (b :: l) = b ++ strConcat l := by
      show l.foldl _ ("" ++ b) = _
      rw [ih, String.empty_append]
    rw [ih, hbl, String.append_assoc]

theorem strConcat_cons (b : String) (l : List String) :
    strConcat (b :: l) = b ++ strConcat l := by
  show l.foldl _ ("" ++ b) = _
  rw [foldl_append_init, String.empty_append]

theorem append_ne_empty_left {a : String} (b : String) (h : a ≠ "") : a ++ b ≠ "" := by
  intro hemp
  have h2 := congrArg String.data hemp
  rw [String.data_append] at h2
  exact h (String.ext (List.append_eq_nil.mp h2).1)

theorem boldMe_ne_empty (me : String) : boldMe me ≠ "" := by
  intro h
  have h2 := congrArg String.data h
  rw [boldMe, String.data_append, String.data_append] at h2
  exact absurd (List.append_eq_nil.mp (List.append_eq_nil.mp h2).1).1 (by decide)

theorem notValidMsg_ne (me p : String) : notValidMsg me p ≠ "" :=
  append_ne_empty_left _ (append_ne_empty_left _ (append_ne_empty_left _ (boldMe_ne_empty me)))

theorem noNameMsg_ne (me p : String) : noNameMsg me p ≠ "" :=
  append_ne_empty_left _ (append_ne_empty_left _ (append_ne_empty_left _ (boldMe_ne_empty me)))

theorem noopMsg_ne (me p : String) : noopMsg me p ≠ "" :=
  append_ne_empty_left _ (append_ne_empty_left _ (append_ne_empty_left _ (boldMe_ne_empty me)))

theorem renameFailMsg_ne (me p res clause : String) : renameFailMsg me p res clause ≠ "" :=
  append_ne_empty_left _ (append_ne_empty_left _ (append_ne_empty_left _
    (append_ne_empty_left _ (append_ne_empty_left _ (append_ne_empty_left _
      (append_ne_empty_left _ (boldMe_ne_empty me)))))))

theorem rename_error_ne (w : World) (args : Parsed) (p e : String) (w' : World)
    (h : rename w args p = some (Except.error e, w')) : e ≠ "" := by
  unfold rename at h
  split at h
  · split at h
    · simp only [Option.some.injEq, Prod.mk.injEq, Except.error.injEq] at h
      rw [← h.1]
      exact noNameMsg_ne _ _
    · split at h
      · simp only [Option.some.injEq, Prod.mk.injEq, Except.error.injEq] at h
        rw [← h.1]
        exact noopMsg_ne _ _
      · split at h
        · split at h
          · exact absurd h (by simp)
          · exact absurd h (by simp)
          · split at h
            · next e0 heq =>
              simp only [Option.some.injEq, Prod.mk.injEq, Except.error.injEq] at h
              rw [doRenameFs] at heq
              split at heq
              · simp only [Except.error.injEq] at heq
                rw [← h.1, ← heq]
                exact renameFailMsg_ne _ _ _ _
              · exact absurd heq (by simp)
            · exact absurd h (by simp)
        · split at h
          · next e0 heq =>
            simp only [Option.some.injEq, Prod.mk.injEq, Except.error.injEq] at h
            rw [doRenameFs] at heq
            split at heq
            · simp only [Except.error.injEq] at heq
              rw [← h.1, ← heq]
              exact renameFailMsg_ne _ _ _ _
            · exact absurd heq (by simp)
          · exact absurd h (by simp)
  · simp only [Option.some.injEq, Prod.mk.injEq, Except.error.injEq] at h
    rw [← h.1]
    exact notValidMsg_ne _ _

theorem runLoop_eq_collect (args : Parsed) (paths : List String) :
    ∀ (w : World) (acc : String),
      runLoop args w paths acc =
        (collectErrs args w paths).map (fun pr => (acc ++ strConcat pr.1, pr.2)) := by
  induction paths with
  | nil =>
    intro w acc
    simp only [runLoop, collectErrs, Option.map_some']
    rw [show strConcat [] = "" from rfl, String.append_empty]
  | cons p rest ih =>
    intro w acc
    simp only [runLoop, collectErrs]
    cases hr : rename w args p with
    | none => rfl
    | some r =>
      obtain ⟨res, w1⟩ := r
      cases res with
      | ok u => exact ih w1 acc
      | error e =>
        dsimp only
        rw [ih w1 (acc ++ e)]
        cases hc : collectErrs args w1 rest with
        | none => rfl
        | some pr =>
          simp only [Option.map_some']
          rw [strConcat_cons, String.append_assoc]

theorem collect_errors_ne (args : Parsed) (paths : List String) :
    ∀ (w : World) (l : List String) (w' : World),
      collectErrs args w paths = some (l, w') → ∀ e ∈ l, e ≠ "" := by
  induction paths with
  | nil =>
    intro w l w' h e he
    simp only [collectErrs, Option.some.injEq, Prod.mk.injEq] at h
    rw [← h.1] at he
    cases he
  | cons p rest ih =>
    intro w l w' h e he
    simp only [collectErrs] at h
    cases hr : rename w args p with
    | none => rw [hr] at h; cases h
    | some r =>
      rw [hr] at h
      obtain ⟨res, w1⟩ := r
      cases res with
      | ok u => exact ih w1 l w' h e he
      | error msg =>
        dsimp only at h
        cases hc : collectErrs args w1 rest with
        | none => rw [hc] at h; cases h
        | some pr =>
          rw [hc] at h
          simp only [Option.map_some', Option.some.injEq, Prod.mk.injEq] at h
          rw [← h.1] at he
          rcases List.mem_cons.mp he with rfl | hmem
          · exact rename_error_ne w args p e w1 hr
          · exact ih w1 pr.1 pr.2 hc e hmem

theorem isEmpty_eq_false_iff {s : String} : s.isEmpty = false ↔ s ≠ "" := by
  rw [← Bool.not_eq_true, not_iff_not]
  exact String.isEmpty_iff s

theorem flag_cond_iff (l : List Char) (c : Char) (s : String) :
    (l.contains c && !s.isEmpty) = true ↔ (c ∈ l ∧ s ≠ "") := by
  rw [Bool.and_eq_true, contains_iff, Bool.not_eq_true']
  exact and_congr_right (fun _ => isEmpty_eq_false_iff)

theorem flag_fill_cond_iff (l : List Char) (c : Char) (s : String) :
    (l.contains c && s.isEmpty) = true ↔ (l.contains c = true ∧ s = "") := by
  rw [Bool.and_eq_true]
  exact and_congr_right (fun _ => String.isEmpty_iff s)

/-- C1: `transform` applies exactly these steps in this fixed order — replace
every space and ideographic space with an underscore; append the append text
when the flag is set and the text is non-empty; prepend the insert text when
the flag is set and the text is non-empty; delete the fixed special set when
RemoveSpecial is set; fold to lowercase when Lowercase is set, else to
uppercase when Uppercase is set — and on the two concrete examples,
`transform("Ho lA.LaY", {u, r}) = "HO_LA.LAY"` and
`transform("u'e&pª\".lay", {u, r}) = "UEP.LAY"`. -/
theorem mod_str_order_and_examples :
    (∀ (text : String) (args : Parsed), mod_str text args = transform_spec text args) ∧
    mod_str "Ho lA.LaY" ⟨"", "", "", ['u', 'r'], []⟩ = "HO_LA.LAY" ∧
    mod_str "u'e&pª\".lay" ⟨"", "", "", ['u', 'r'], []⟩ = "UEP.LAY" := by
  refine ⟨fun text args => ?_, by decide, by decide⟩
  simp only [mod_str, transform_spec]
  by_cases h1 : 'a' ∈ args.flg ∧ args.app ≠ "" <;>
    by_cases h2 : 'i' ∈ args.flg ∧ args.ins ≠ "" <;>
      by_cases h3 : 'r' ∈ args.flg <;>
        by_cases h4 : 'l' ∈ args.flg <;>
          by_cases h5 : 'u' ∈ args.flg <;>
            simp [flag_cond_iff, contains_iff, isEmpty_eq_false_iff, h1, h2, h3, h4, h5]

/-- C2 counterexample: after `-a x`, with the append slot filled and Insert
inactive, the next non-path token `y` is dropped entirely instead of being
classified as a positional target — parsing `prog -a x y` leaves the
positional list empty and fails with "missing file operand". -/
theorem second_value_token_dropped :
    arg_analyzer (fun _ => false) ["prog", "-a", "x", "y"] = .error missingOperandMsg ∧
    (classify (fun _ => false) ⟨"x", "", "prog", ['a'], []⟩ "y").pos = [] :=
  ⟨rfl, rfl⟩

/-- C2 amended: while Append or Insert is active, a non-path token fills the
append slot if Append is active and that slot is empty, else the insert slot
if Insert is active and that slot is empty, and otherwise is discarded —
assigned to no slot and never added to the positional target list. -/
theorem classify_value_slots (fs : String → Bool) (st : Parsed) (arg : String)
    (hd : arg.data.head? ≠ some '-')
    (hx : fs arg = false)
    (hfl : st.flg.contains 'a' = true ∨ st.flg.contains 'i' = true) :
    classify fs st arg =
      if st.flg.contains 'a' = true ∧ st.app = "" then { st with app := arg }
      else if st.flg.contains 'i' = true ∧ st.ins = "" then { st with ins := arg }
      else st := by
  unfold classify
  split
  · next stripped heq => exact absurd (by rw [heq]; rfl) hd
  · rw [hx]
    simp only [Bool.not_false, Bool.and_true]
    have hor : (st.flg.contains 'a' || st.flg.contains 'i') = true := by
      rcases hfl with h | h
      · rw [h, Bool.true_or]
      · rw [h, Bool.or_true]
    rw [if_pos hor]
    by_cases ha : st.flg.contains 'a' = true ∧ st.app = ""
    · rw [if_pos ((flag_fill_cond_iff _ _ _).mpr ha), if_pos ha]
    · rw [if_neg (fun hcond => ha ((flag_fill_cond_iff _ _ _).mp hcond)), if_neg ha]
      by_cases hi : st.flg.contains 'i' = true ∧ st.ins = ""
      · rw [if_pos ((flag_fill_cond_iff _ _ _).mpr hi), if_pos hi]
      · rw [if_neg (fun hcond => hi ((flag_fill_cond_iff _ _ _).mp hcond)), if_neg hi]

/-- C2 witness: a concrete non-path token arriving while Append is active
with a filled slot leaves the parser state unchanged. -/
theorem classify_value_slots_witness :
    ("y".data.head? ≠ some '-') ∧
    classify (fun _ => false) ⟨"x", "", "prog", ['a'], []⟩ "y" = ⟨"x", "", "prog", ['a'], []⟩ :=
  ⟨by decide, by
    rw [classify_value_slots (fun _ => false) ⟨"x", "", "prog", ['a'], []⟩ "y"
      (by decide) rfl (Or.inl rfl)]
    decide⟩

/-- C3: `run` attempts every target in command-line order, never aborts the
batch early, fails exactly when at least one per-target error was recorded,
and then returns the per-target messages concatenated in target order
followed by the trailing summary line. -/
theorem run_eq_run_spec (w : World) (args : Parsed) : run w args = run_spec w args := by
  unfold run run_spec
  rw [runLoop_eq_collect]
  cases hc : collectErrs args w args.pos with
  | none => rfl
  | some pr =>
    obtain ⟨l, w'⟩ := pr
    simp only [Option.map_some']
    rw [String.empty_append]
    cases l with
    | nil => rw [if_pos (show strConcat [] = "" from rfl)]; rfl
    | cons e l' =>
      have hne : strConcat (e :: l') ≠ "" := by
        rw [strConcat_cons]
        exact append_ne_empty_left _
          (collect_errors_ne args args.pos w (e :: l') w' hc e (List.mem_cons_self e l'))
      rw [if_neg hne]
      rfl

/-- C4 counterexample: with `-luh`, both case flags are present yet the
parser returns the configuration successfully (the Help short-circuit runs
before the conflict check), so no ConflictingCase rejection occurs. -/
theorem conflict_bypassed_by_help :
    arg_analyzer (fun _ => false) ["prog", "-luh"] = .ok ⟨"", "", "prog", ['l', 'u', 'h'], []⟩ ∧
    ∀ msg : String, arg_analyzer (fun _ => false) ["prog", "-luh"] ≠ .error msg := by
  refine ⟨rfl, fun msg h => ?_⟩
  rw [show arg_analyzer (fun _ => false) ["prog", "-luh"]
      = .ok ⟨"", "", "prog", ['l', 'u', 'h'], []⟩ from rfl] at h
  exact Except.noConfusion h

/-- C4 amended: whenever both `l` and `u` are among the parsed flags, the
Help flag is absent, and at least one positional target was parsed, the
parser rejects the input with the ConflictingCase message, regardless of
which other flags are present. -/
theorem conflict_rejected_without_help (fs : String → Bool) (argv : List String)
    (hlen : 2 ≤ argv.length)
    (hh : (analyze fs argv).flg.contains 'h' = false)
    (hpos : (analyze fs argv).pos.isEmpty = false)
    (hl : (analyze fs argv).flg.contains 'l' = true)
    (hu : (analyze fs argv).flg.contains 'u' = true) :
    arg_analyzer fs argv = .error conflictMsg := by
  simp only [arg_analyzer]
  rw [if_neg (by omega : ¬ argv.length ≤ 1)]
  rw [hh, hpos, hl, hu]
  rfl

/-- C4 witness: `prog -lu t` (with `t` not an existing path but also no
active Append/Insert, so it is positional) is rejected with the conflict
message. -/
theorem conflict_rejected_without_help_witness :
    2 ≤ (["prog", "-lu", "t"] : List String).length ∧
    arg_analyzer (fun _ => false) ["prog", "-lu", "t"] = .error conflictMsg :=
  ⟨by decide,
    conflict_rejected_without_help (fun _ => false) ["prog", "-lu", "t"]
      (by decide) rfl rfl rfl rfl⟩

/-- C5: when at least one argument beyond the program name was supplied and
the Help flag is among the parsed flags, the parser returns the accumulated
configuration as-is, bypassing the empty-targets, case-conflict, missing
append/insert text and unknown-flag validations. -/
theorem help_skips_validation (fs : String → Bool) (argv : List String)
    (hlen : 2 ≤ argv.length)
    (hh : (analyze fs argv).flg.contains 'h' = true) :
    arg_analyzer fs argv = .ok (analyze fs argv) := by
  simp only [arg_analyzer]
  rw [if_neg (by omega : ¬ argv.length ≤ 1)]
  rw [hh]
  rfl

/-- C5 witness: `prog -hluz` parses successfully although it has a case
conflict, an unknown flag and no positional targets. -/
theorem help_skips_validation_witness :
    2 ≤ (["prog", "-hluz"] : List String).length ∧
    (analyze (fun _ => false) ["prog", "-hluz"]).flg.contains 'h' = true ∧
    arg_analyzer (fun _ => false) ["prog", "-hluz"]
      = .ok ⟨"", "", "prog", ['h', 'l', 'u', 'z'], []⟩ :=
  ⟨by decide, rfl,
    (help_skips_validation (fun _ => false) ["prog", "-hluz"] (by decide) rfl).trans rfl⟩

/-- C6: with active flags drawn only from Lowercase, Uppercase and
RemoveSpecial (Append and Insert inactive), `transform` is idempotent. -/
theorem mod_str_idempotent (s : String) (args : Parsed)
    (h : ∀ c ∈ args.flg, c = 'l' ∨ c = 'u' ∨ c = 'r') :
    mod_str (mod_str s args) args = mod_str s args := by
  have ha : args.flg.contains 'a' = false :=
    contains_eq_false_iff.mpr
      (fun hm => by rcases h 'a' hm with h1 | h1 | h1 <;> exact absurd h1 (by decide))
  have hi : args.flg.contains 'i' = false :=
    contains_eq_false_iff.mpr
      (fun hm => by rcases h 'i' hm with h1 | h1 | h1 <;> exact absurd h1 (by decide))
  simp only [mod_str, ha, hi, Bool.false_and, Bool.false_eq_true, if_false]
  by_cases hr : args.flg.contains 'r' = true
  · by_cases hl : args.flg.contains 'l' = true
    · simp only [hr, hl, if_true]
      rw [replaceSpaces_of_noSpaces
          (noSpaces_strLower (noSpaces_removeSpecial (noSpaces_replaceSpaces s))),
        removeSpecial_of_noSpecials
          (noSpecials_strLower (noSpecials_removeSpecial (replaceSpaces s))),
        strLower_strLower]
    · rw [Bool.not_eq_true] at hl
      by_cases hu : args.flg.contains 'u' = true
      · simp only [hr, hl, hu, if_true, Bool.false_eq_true, if_false]
        rw [replaceSpaces_of_noSpaces
            (noSpaces_strUpper (noSpaces_removeSpecial (noSpaces_replaceSpaces s))),
          removeSpecial_of_noSpecials
            (noSpecials_strUpper (noSpecials_removeSpecial (replaceSpaces s))),
          strUpper_strUpper]
      · rw [Bool.not_eq_true] at hu
        simp only [hr, hl, hu, if_true, Bool.false_eq_true, if_false]
        rw [replaceSpaces_of_noSpaces
            (noSpaces_removeSpecial (noSpaces_replaceSpaces s)),
          removeSpecial_of_noSpecials (noSpecials_removeSpecial (replaceSpaces s))]
  · rw [Bool.not_eq_true] at hr
    by_cases hl : args.flg.contains 'l' = true
    · simp only [hr, hl, if_true, Bool.false_eq_true, if_false]
      rw [replaceSpaces_of_noSpaces (noSpaces_strLower (noSpaces_replaceSpaces s)),
        strLower_strLower]
    · rw [Bool.not_eq_true] at hl
      by_cases hu : args.flg.contains 'u' = true
      · simp only [hr, hl, hu, if_true, Bool.false_eq_true, if_false]
        rw [replaceSpaces_of_noSpaces (noSpaces_strUpper (noSpaces_replaceSpaces s)),
          strUpper_strUpper]
      · rw [Bool.not_eq_true] at hu
        simp only [hr, hl, hu, Bool.false_eq_true, if_false]
        rw [replaceSpaces_of_noSpaces (noSpaces_replaceSpaces s)]

/-- C6 witness: a concrete lowercase-and-remove configuration applied twice. -/
theorem mod_str_idempotent_witness :
    (∀ c ∈ (['l', 'r'] : List Char), c = 'l' ∨ c = 'u' ∨ c = 'r') ∧
    mod_str (mod_str "A b!" ⟨"", "", "", ['l', 'r'], []⟩) ⟨"", "", "", ['l', 'r'], []⟩ =
      mod_str "A b!" ⟨"", "", "", ['l', 'r'], []⟩ :=
  ⟨by decide, mod_str_idempotent "A b!" ⟨"", "", "", ['l', 'r'], []⟩ (by decide)⟩

/-- C7 counterexample: for the existing directory path `a/B/` the filename
`B` is extractable, but the computed destination is `b` — the leading
directory `a/` is dropped, not preserved (`strip_suffix` fails on the
trailing separator). -/
theorem dest_drops_dir_on_trailing_slash :
    fileName "a/B/" = some "B" ∧
    destOf ⟨"", "", "normie", ['l'], ["a/B/"]⟩ "a/B/" "B" = "b" ∧
    ("b" : String) ≠ "a/" ++ "b" :=
  ⟨rfl, rfl, by decide⟩

/-- C7 amended: when the extracted filename is a literal suffix of the
target path (in particular whenever the path has no trailing separator), the
destination is exactly the path with that trailing filename replaced by the
transformed name, the leading directory portion preserved unchanged; a path
with a trailing separator instead loses its directory portion. -/
theorem dest_preserves_dir_of_suffix (args : Parsed) (d name : String)
    (hname : fileName (d ++ name) = some name) :
    destOf args (d ++ name) name = d ++ mod_str name args := by
  unfold destOf stripTail
  have hsuf : name.data.isSuffixOf (d ++ name).data = true := by
    rw [String.data_append]
    simp [List.isSuffixOf_iff_suffix]
  rw [if_pos hsuf]
  have htake : (d ++ name).data.take ((d ++ name).data.length - name.data.length) = d.data := by
    rw [String.data_append, List.length_append]
    rw [show d.data.length + name.data.length - name.data.length = d.data.length from by omega]
    exact List.take_left d.data name.data
  rw [htake]

/-- C7 witness: a concrete one-directory path whose destination keeps the
directory. -/
theorem dest_preserves_dir_of_suffix_witness :
    fileName ("a/" ++ "B.txt") = some "B.txt" ∧
    destOf ⟨"", "", "normie", ['l'], []⟩ ("a/" ++ "B.txt") "B.txt" = "a/" ++ "b.txt" :=
  ⟨rfl, by
    rw [dest_preserves_dir_of_suffix ⟨"", "", "normie", ['l'], []⟩ "a/" "B.txt" rfl]
    rfl⟩

/-- C8: a target whose transformed name equals its original filename gets the
"nothing to do with" error recorded, the world is left untouched, and the
run loop continues with the remaining targets carrying that message in the
accumulated error. -/
theorem noop_reported (w : World) (args : Parsed) (p name : String)
    (hex : w.files.contains p = true)
    (hname : fileName p = some name)
    (hnoop : mod_str name args = name) :
    rename w args p = some (.error (noopMsg args.me p), w) ∧
    ∀ (rest : List String) (acc : String),
      runLoop args w (p :: rest) acc = runLoop args w rest (acc ++ noopMsg args.me p) := by
  have hren : rename w args p = some (.error (noopMsg args.me p), w) := by
    unfold rename
    rw [if_pos hex, hname]
    dsimp only
    rw [if_pos hnoop.symm]
  refine ⟨hren, fun rest acc => ?_⟩
  simp only [runLoop]
  rw [hren]

/-- C8 witness: `plain.txt` with no active flags is reported as a no-op and
the filesystem is untouched. -/
theorem noop_reported_witness :
    (⟨["plain.txt"], fun _ _ => none, fun _ _ => ""⟩ : World).files.contains "plain.txt" = true ∧
    fileName "plain.txt" = some "plain.txt" ∧
    mod_str "plain.txt" ⟨"", "", "normie", [], ["plain.txt"]⟩ = "plain.txt" ∧
    rename ⟨["plain.txt"], fun _ _ => none, fun _ _ => ""⟩
        ⟨"", "", "normie", [], ["plain.txt"]⟩ "plain.txt"
      = some (.error (noopMsg "normie" "plain.txt"),
          ⟨["plain.txt"], fun _ _ => none, fun _ _ => ""⟩) :=
  ⟨rfl, rfl, rfl,
    (noop_reported ⟨["plain.txt"], fun _ _ => none, fun _ _ => ""⟩
      ⟨"", "", "normie", [], ["plain.txt"]⟩ "plain.txt" "plain.txt" rfl rfl rfl).1⟩

/-- C9 counterexample: `-ll` parses successfully and the resulting flag
collection is `['l', 'l']`, which contains a duplicate character. -/
theorem flg_duplicates_kept :
    arg_analyzer (fun _ => false) ["prog", "-ll", "x"] = .ok ⟨"", "", "prog", ['l', 'l'], ["x"]⟩ ∧
    ¬ (['l', 'l'] : List Char).Nodup :=
  ⟨rfl, by decide⟩

/-- C9 amended: the parsed flags are an ordered list that retains duplicate
characters (`-ll` yields `['l', 'l']`); duplicates are harmless because flags
are only consulted by membership, so deduplicating the flag list never
changes the transformation. -/
theorem flg_duplicates_harmless :
    (analyze (fun _ => false) ["prog", "-ll", "x"]).flg = ['l', 'l'] ∧
    ∀ (s : String) (args : Parsed),
      mod_str s { args with flg := args.flg.dedup } = mod_str s args := by
  refine ⟨rfl, fun s args => ?_⟩
  have hc : ∀ c : Char, args.flg.dedup.contains c = args.flg.contains c := by
    intro c
    by_cases hm : c ∈ args.flg
    · rw [contains_iff.mpr hm, contains_iff.mpr (List.mem_dedup.mpr hm)]
    · rw [contains_eq_false_iff.mpr hm,
        contains_eq_false_iff.mpr (fun hx => hm (List.mem_dedup.mp hx))]
  simp only [mod_str, hc]

/-- C10: the interactive confirmation is not total — a reply that is empty
or all whitespace after trimming, or whose first character occupies more
than one UTF-8 byte, makes the byte slice `input.trim()[..1]` panic instead
of counting as a declining answer. -/
theorem interactive_not_total (input : String)
    (h : (trimChars input).data = [] ∨ 1 < ((trimChars input).data.headD ' ').utf8Size) :
    interactiveCheck input = none := by
  unfold interactiveCheck
  cases hd : (trimChars input).data with
  | nil => rfl
  | cons c rest =>
    dsimp only
    rcases h with h | h
    · rw [hd] at h
      exact absurd h (by simp)
    · rw [hd] at h
      simp only [List.headD_cons] at h
      rw [if_pos (by omega)]

/-- C10 witness: the all-whitespace reply panics. -/
theorem interactive_not_total_witness :
    ((trimChars " \t").data = [] ∨ 1 < ((trimChars " \t").data.headD ' ').utf8Size) ∧
    interactiveCheck " \t" = none :=
  ⟨Or.inl rfl, interactive_not_total " \t" (Or.inl rfl)⟩

end Normie
